import Mathlib

/-!
Verification of the iq.js iterable-querying library against its
natural-language specification.

The embedding is shallow: a JavaScript `QueryRule` (a generator function
turning an input iterable into an output iterable) is modelled as a Lean
function `List α → List α`, evaluated on the fully drained sequence.
Generator loops of the source are transcribed literally as structural
recursions; where a claim is about how many elements a stage pulls from
its upstream iterator, the recursion is instrumented with an explicit
pull counter that counts the successful `next()` calls made by the
`for...of` loop of the corresponding generator under a full drain.
-/

set_option autoImplicit false

namespace Iq

variable {α β : Type}

/-- A `QueryRule` (stage): a transformer from an input sequence to an
output sequence, as produced by the `Build*Rule` factory functions. -/
abbrev Stage (α : Type) : Type := List α → List α

/-! ### Rule factory -/

/-- Loop body of the generator returned by `BuildTakeRule(n)`:
`let taken = 0; for (const val of it) { if (taken >= n) break; yield val; taken++; }`.
The `for...of` loop first pulls an element from `it`, then runs the body.
Returns the yielded output together with the number of input elements
pulled (successful `next()` calls) under a full drain of the generator. -/
def takeLoop (n : Nat) : Nat → List α → List α × Nat
  | _, [] => ([], 0)
  | taken, v :: rest =>
    if taken ≥ n then ([], 1)
    else
      let r := takeLoop n (taken + 1) rest
      (v :: r.1, r.2 + 1)

/-- Output of the `TakeRule` built by `BuildTakeRule(n)` on input `it`. -/
def BuildTakeRule (n : Nat) (it : List α) : List α := (takeLoop n 0 it).1

/-- Number of elements the `TakeRule` built by `BuildTakeRule(n)` pulls
from its upstream iterator when the rule's generator is fully drained. -/
def takePulls (n : Nat) (it : List α) : Nat := (takeLoop n 0 it).2

/-- Loop body of the generator returned by `BuildFlatRule(n)` (default
`n = -1`): `let flattened = 0; for (const val of it) { if (n >= 0 &&
flattened >= n) break; yield* val; flattened++; }`. -/
def flatLoop (n : Int) : Nat → List (List α) → List α
  | _, [] => []
  | flattened, g :: rest =>
    if 0 ≤ n ∧ n ≤ (flattened : Int) then []
    else g ++ flatLoop n (flattened + 1) rest

/-- Output of the `FlatRule` built by `BuildFlatRule(n)` on input `it`.
Calling `flat()` on a `Query` with no argument reaches the source's
default parameter `n = -1` (every negative `n` means unlimited). -/
def BuildFlatRule (n : Int) (it : List (List α)) : List α := flatLoop n 0 it

/-- Loop body of the generator returned by `BuildWhereRule(fn)`:
`let i = 0; for (const val of it) { if (fn(val, i++)) yield val; }`. -/
def whereLoop (fn : α → Nat → Bool) : Nat → List α → List α
  | _, [] => []
  | i, v :: rest =>
    if fn v i then v :: whereLoop fn (i + 1) rest else whereLoop fn (i + 1) rest

/-- Output of the `WhereRule` built by `BuildWhereRule(fn)` on input `it`. -/
def BuildWhereRule (fn : α → Nat → Bool) (it : List α) : List α := whereLoop fn 0 it

/-- Loop body of the generator returned by `BuildSkipRule(n)`:
`let skipped = 0; for (const val of it) { if (skipped >= n) yield val; skipped++; }`. -/
def skipLoop (n : Nat) : Nat → List α → List α
  | _, [] => []
  | skipped, v :: rest =>
    if skipped ≥ n then v :: skipLoop n (skipped + 1) rest else skipLoop n (skipped + 1) rest

/-- Output of the `SkipRule` built by `BuildSkipRule(n)` on input `it`. -/
def BuildSkipRule (n : Nat) (it : List α) : List α := skipLoop n 0 it

/-- Loop body of the generator returned by `BuildMapRule(fn)`:
`let i = 0; for (const val of it) yield fn(val, i++);`. -/
def mapLoop (fn : α → Nat → β) : Nat → List α → List β
  | _, [] => []
  | i, v :: rest => fn v i :: mapLoop fn (i + 1) rest

/-- Output of the `MapRule` built by `BuildMapRule(fn)` on input `it`. -/
def BuildMapRule (fn : α → Nat → β) (it : List α) : List β := mapLoop fn 0 it

/-! ### Query.compile -/

/-- `Query.compile()`: with an empty rule list it returns the pass-through
generator `function*(it) { yield* it; }`; otherwise it starts from
`rules[0]` and wraps each later rule around the previously compiled one:
`compiled = it => rule(prevCompiled(it))`. -/
def compileList (rules : List (Stage α)) : Stage α :=
  match rules with
  | [] => fun it => it
  | r :: rest => rest.foldl (fun compiled rule => fun it => rule (compiled it)) r

theorem compileList_foldl_aux (rest : List (Stage α)) :
    ∀ (c : Stage α) (it : List α),
      rest.foldl (fun compiled rule => fun s => rule (compiled s)) c it
        = rest.foldl (fun acc r => r acc) (c it) := by
  induction rest with
  | nil => intro c it; rfl
  | cons r rest ih => intro c it; exact ih _ it

theorem compileList_eq_foldl (rules : List (Stage α)) (it : List α) :
    compileList rules it = rules.foldl (fun acc r => r acc) it := by
  cases rules with
  | nil => rfl
  | cons r rest => exact compileList_foldl_aux rest r it

/-! ### Query builders as mutable objects

A `Query` object owns a mutable array `this.rules`; its chaining methods
push onto that array in place, `pack()` overwrites it in place, and
`extend()` allocates a fresh `Query` around the fresh one-element array
literal `[this.compile()]`. To reason about this aliasing behaviour the
JS heap of rule arrays is modelled explicitly: an address (the object
identity of a `Query`) indexes into a store of rule lists, and `next` is
the first never-allocated address. -/

/-- The store of `Query` objects: `cells a` is the current content of the
`rules` array of the `Query` at address `a`; addresses `≥ next` are
unallocated. -/
structure BState (α : Type) : Type where
  cells : Nat → List (Stage α)
  next : Nat

/-- Read `this.rules` of the `Query` at address `a`. -/
def getRules (st : BState α) (a : Nat) : List (Stage α) := st.cells a

/-- Overwrite `this.rules` of the `Query` at address `a` in place. -/
def setRules (st : BState α) (a : Nat) (rs : List (Stage α)) : BState α :=
  ⟨fun b => if b = a then rs else st.cells b, st.next⟩

/-- `Query._pushrule(rule)`: `this.rules.push(rule)`, mutating the array
of the `Query` at address `a` in place (the address is returned
unchanged, mirroring `return this`). -/
def pushRuleS (st : BState α) (a : Nat) (r : Stage α) : BState α :=
  setRules st a (getRules st a ++ [r])

/-- A chain of stage-appending mutations (`select`/`where`/`flat`/`take`/
`skip`/`map` calls) applied to the `Query` at address `a`. -/
def pushManyS (st : BState α) (a : Nat) (rs : List (Stage α)) : BState α :=
  rs.foldl (fun st r => pushRuleS st a r) st

/-- `Query.compile()` of the `Query` at address `a` (reads the rule list,
never mutates it). -/
def compileS (st : BState α) (a : Nat) : Stage α := compileList (getRules st a)

/-- Output of running the pipeline of the `Query` at address `a` on the
source sequence `s`. -/
def runS (st : BState α) (a : Nat) (s : List α) : List α := compileS st a s

/-- `Query.extend()`: `new Query([this.compile()])` — allocates a fresh
`Query` whose `rules` array is the fresh one-element array literal
holding the compiled snapshot; returns its (fresh) address and the new
store. -/
def extendS (st : BState α) (a : Nat) : Nat × BState α :=
  (st.next, ⟨fun b => if b = st.next then [compileS st a] else st.cells b, st.next + 1⟩)

/-- `Query.pack()`: `if (this.rules.length > 0) this.rules =
[this.compile()]; return this;` — overwrites the rule array in place only
when it is non-empty, and returns the same object (same address). -/
def packS (st : BState α) (a : Nat) : Nat × BState α :=
  if (getRules st a).length > 0
  then (a, setRules st a [compileList (getRules st a)])
  else (a, st)

theorem getRules_pushRuleS_ne (st : BState α) (a b : Nat) (r : Stage α) (h : b ≠ a) :
    getRules (pushRuleS st a r) b = getRules st b := by
  simp [pushRuleS, setRules, getRules, if_neg h]

theorem getRules_pushManyS_ne (st : BState α) (a b : Nat) (rs : List (Stage α)) (h : b ≠ a) :
    getRules (pushManyS st a rs) b = getRules st b := by
  induction rs generalizing st with
  | nil => rfl
  | cons r rs ih =>
    show getRules (pushManyS (pushRuleS st a r) a rs) b = getRules st b
    rw [ih (pushRuleS st a r), getRules_pushRuleS_ne st a b r h]

/-! ### Query executor -/

/-- The only failure the engine itself can raise: iterating a source that
is not iterable (in particular the `null` left by an unbound executor),
which surfaces as a generic `TypeError` when the compiled generator makes
its first pull attempt. -/
inductive JsError : Type
  | notIterable
  deriving DecidableEq

/-- `QueryExecutor`: holds the compiled query and the (nullable, mutable)
iterable it runs on; `none` models the `null` default of the constructor
and of an executor built before a source is bound. -/
structure QueryExecutor (α : Type) : Type where
  query : Stage α
  iterable : Option (List α)

/-- `Query.on(iterable)`: `new QueryExecutor(this.compile(), iterable)`. -/
def queryOn (rules : List (Stage α)) (iterable : Option (List α)) : QueryExecutor α :=
  ⟨compileList rules, iterable⟩

/-- `Query.build()`: `return this.on();` — calling `on` with no argument
leaves the executor's iterable at the constructor default `null`. -/
def queryBuild (rules : List (Stage α)) : QueryExecutor α := queryOn rules none

/-- A terminal drain of the executor (`collect()`, `foreach`, direct
iteration): the generator `*[Symbol.iterator]() { yield* this.query(this.iterable); }`
runs only when first pulled; with a `null` iterable the innermost
`for...of` then throws the generic not-iterable `TypeError`; otherwise
the full output of the compiled query on the bound source is produced. -/
def execCollect (e : QueryExecutor α) : Except JsError (List α) :=
  match e.iterable with
  | none => .error .notIterable
  | some it => .ok (e.query it)

/-! ### JavaScript values and the select rule -/

/-- Dynamic values flowing through a pipeline, as far as the projection
stage can observe them: records with string-keyed fields, primitives
(numbers, strings) and `undefined`. -/
inductive JsVal : Type
  | undefined
  | num (n : Int)
  | str (s : String)
  | obj (fields : List (String × JsVal))

/-- Property read `v[f]`: on a record, the value stored under the key
`f`, or `undefined` when the key is absent; `undefined` on the other
modelled values. -/
def getField (v : JsVal) (f : String) : JsVal :=
  match v with
  | .obj fields => ((fields.find? (fun p => p.1 == f)).map Prod.snd).getD .undefined
  | _ => .undefined

/-- The key list of a record value (empty on non-records). -/
def objKeys : JsVal → List String
  | .obj fields => fields.map Prod.fst
  | _ => []

/-- The `fields` parameter of `BuildSelectRule`: the source distinguishes
the array case from the single-string case with `Array.isArray(fields)`. -/
inductive SelectFields : Type
  | single (f : String)
  | many (fs : List String)

/-- `BuildSelectRule(fields)`: with an array of field names, each input
element is mapped to the freshly built record `{}` filled by
`obj[field] = val[field]` for each requested field; with a single field
name, `val[fields]` is yielded directly and no record is created. -/
def BuildSelectRule : SelectFields → Stage JsVal
  | .many fs => fun it =>
      it.map (fun val => .obj (fs.map (fun field => (field, getField val field))))
  | .single f => fun it => it.map (fun val => getField val f)

/-! ### Promises and acollect

`acollect` hands the values it pulls to `fn`, collects the returned
promises and joins them with the host runtime's `Promise.all`. A settled
promise is modelled by its settle time (the position of its settlement
in the host's event-loop order) and its outcome; `Promise.all` resolves
with the fulfillment values in input order when every input fulfils, and
rejects with the reason of the earliest-settling rejection otherwise
(ties in settle time go to the earlier promise in the list). Sibling
promises are never cancelled; their outcomes simply do not appear in the
aggregate once it has rejected. -/

/-- A settled asynchronous result handed to `Promise.all`. -/
structure JsPromise (ε β : Type) : Type where
  settleAt : Nat
  result : Except ε β

/-- Combine one promise's outcome with the earliest rejection of the
promises after it, keeping the rejection that settles first. -/
def mergeRejection {ε β : Type} (p : JsPromise ε β) (r : Option (Nat × ε)) : Option (Nat × ε) :=
  match p.result with
  | .ok _ => r
  | .error e =>
    match r with
    | none => some (p.settleAt, e)
    | some (t, e2) => if t < p.settleAt then some (t, e2) else some (p.settleAt, e)

/-- The settle time and reason of the first promise of the list to
reject, in event-loop order; `none` when every promise fulfils. -/
def earliestRejection {ε β : Type} : List (JsPromise ε β) → Option (Nat × ε)
  | [] => none
  | p :: rest => mergeRejection p (earliestRejection rest)

/-- The fulfillment values of a promise list, in list order. -/
def promiseValues {ε β : Type} (ps : List (JsPromise ε β)) : List β :=
  ps.filterMap (fun p => p.result.toOption)

/-- `Promise.all(promises)`: rejects with the reason of the first
rejection to settle, and otherwise fulfils with the values in input
(not settle) order. -/
def promiseAll {ε β : Type} (ps : List (JsPromise ε β)) : Except ε (List β) :=
  match earliestRejection ps with
  | some (_, e) => .error e
  | none => .ok (promiseValues ps)

/-- What a call to `acollect(fn)` does: either a synchronous exception
escapes the call itself before `Promise.all` is ever invoked
(`syncThrow`), or the aggregate promise is launched and eventually
settles with the given joined result (`aggregate`). -/
inductive AcollectResult (ε β : Type) : Type
  | syncThrow (e : ε)
  | aggregate (r : Except ε (List β))

/-- The loop of `QueryExecutor.acollect(fn)`: `let i = 0; const promises
= []; for (const val of this) promises.push(fn(val, i++)); return
Promise.all(promises);`. The pulled pipeline output is its produced
prefix plus an optional error raised by the pull that follows the last
produced value; an `fn` invocation may itself throw synchronously
(`Except.error`) instead of returning a promise. -/
def acollectLoop {α ε β : Type} (fn : α → Nat → Except ε (JsPromise ε β)) :
    Nat → List (JsPromise ε β) → List α → Option ε → AcollectResult ε β
  | _, promises, [], none => .aggregate (promiseAll promises)
  | _, _, [], some e => .syncThrow e
  | i, promises, v :: rest, perr =>
    match fn v i with
    | .error e => .syncThrow e
    | .ok p => acollectLoop fn (i + 1) (promises ++ [p]) rest perr

/-- `QueryExecutor.acollect(fn)` run over a pipeline that produces
`produced` and then (optionally) raises `perr` on the final pull. -/
def acollectRun {α ε β : Type} (produced : List α) (perr : Option ε)
    (fn : α → Nat → Except ε (JsPromise ε β)) : AcollectResult ε β :=
  acollectLoop fn 0 [] produced perr

end Iq

/-! ### Claim theorems for the rule factory and compile -/

open Iq

/-- C1: `Query.compile()` is the identity transformer on an empty rule
list, applies the rules sequentially in list order, and composes:
running the rule list `r1 ++ r2` on a source `s` equals running `r1`'s
pipeline on `s` and feeding its full output as the source to `r2`'s
pipeline. -/
theorem compile_identity_order_append {α : Type} (r1 r2 : List (Stage α)) (s : List α) :
    compileList ([] : List (Stage α)) s = s ∧
    compileList r1 s = r1.foldl (fun acc r => r acc) s ∧
    compileList (r1 ++ r2) s = compileList r2 (compileList r1 s) := by
  refine ⟨rfl, compileList_eq_foldl r1 s, ?_⟩
  rw [compileList_eq_foldl, compileList_eq_foldl, compileList_eq_foldl, List.foldl_append]

theorem takeLoop_spec {α : Type} (n : Nat) (it : List α) :
    ∀ taken : Nat, takeLoop n taken it = (it.take (n - taken), min (n - taken + 1) it.length) := by
  induction it with
  | nil => intro taken; simp [takeLoop]
  | cons v rest ih =>
    intro taken
    by_cases h : taken ≥ n
    · have hz : n - taken = 0 := Nat.sub_eq_zero_of_le h
      simp [takeLoop, h, hz]
    · have hlt : taken < n := Nat.lt_of_not_le h
      simp only [takeLoop, if_neg h, ih (taken + 1)]
      have hstep : n - taken = (n - (taken + 1)) + 1 := by omega
      rw [Prod.mk.injEq]
      constructor
      · rw [hstep, List.take_succ_cons]
      · simp only [List.length_cons]
        omega

/-- C2 (amended): `take(n)` yields exactly the first `n` elements of the
input (all of it when shorter), and under a full drain it pulls
`min (n+1) length` elements from upstream: the `(n+1)`-th input element,
when present, is still requested (and discarded) by the `for...of` loop
before the stage terminates. -/
theorem take_output_and_pulls {α : Type} (n : Nat) (it : List α) :
    BuildTakeRule n it = it.take n ∧ takePulls n it = min (n + 1) it.length := by
  have h := takeLoop_spec n it 0
  constructor
  · show (takeLoop n 0 it).1 = it.take n
    rw [h]
    simp
  · show (takeLoop n 0 it).2 = min (n + 1) it.length
    rw [h]
    simp

/-- C2 (counterexample): the claim that once `n` elements have been
yielded no element beyond the `n`-th is requested from the upstream
sequence is false: draining `take(2)` over the four-element input
`[1,2,3,4]` pulls 3 elements from upstream, not at most 2. -/
theorem take_pulls_beyond_n : takePulls 2 [1, 2, 3, 4] = 3 ∧ ¬ (takePulls 2 [1, 2, 3, 4] ≤ 2) := by
  constructor
  · rfl
  · decide

theorem flatLoop_nonneg {α : Type} (m : Nat) (it : List (List α)) :
    ∀ f : Nat, flatLoop (m : Int) f it = ((it.take (m - f)).flatten : List α) := by
  induction it with
  | nil => intro f; simp [flatLoop]
  | cons g rest ih =>
    intro f
    by_cases h : m ≤ f
    · have hz : m - f = 0 := Nat.sub_eq_zero_of_le h
      have hc : 0 ≤ (m : Int) ∧ (m : Int) ≤ (f : Int) := ⟨Int.ofNat_nonneg m, by exact_mod_cast h⟩
      rw [flatLoop, if_pos hc, hz, List.take_zero, List.flatten_nil]
    · have hc : ¬ (0 ≤ (m : Int) ∧ (m : Int) ≤ (f : Int)) := by
        intro hc
        exact h (by exact_mod_cast hc.2)
      rw [flatLoop, if_neg hc, ih (f + 1)]
      have hstep : m - f = (m - (f + 1)) + 1 := by omega
      rw [hstep, List.take_succ_cons, List.flatten_cons]

theorem flatLoop_neg {α : Type} (n : Int) (hn : n < 0) (it : List (List α)) :
    ∀ f : Nat, flatLoop n f it = (it.flatten : List α) := by
  induction it with
  | nil => intro f; simp [flatLoop]
  | cons g rest ih =>
    intro f
    have hc : ¬ (0 ≤ n ∧ n ≤ (f : Int)) := fun hc => absurd hn (Int.not_lt.mpr hc.1)
    rw [flatLoop, if_neg hc, ih (f + 1), List.flatten_cons]

/-- C3: for a non-negative count `m`, `flat(m)` yields the members of the
first `m` input groups, fully expanded in order, and nothing else — the
remaining groups are discarded, not passed through unflattened; for a
negative count (the `n = -1` default reached by calling `flat()` with no
argument) every group is expanded. -/
theorem flat_expands_first_n_groups {α : Type} (m : Nat) (n : Int) (it : List (List α)) :
    BuildFlatRule (m : Int) it = ((it.take m).flatten : List α) ∧
    (n < 0 → BuildFlatRule n it = (it.flatten : List α)) := by
  constructor
  · show flatLoop (m : Int) 0 it = _
    rw [flatLoop_nonneg m it 0]
    simp
  · intro hn
    exact flatLoop_neg n hn it 0

/-- C3 (witness): `flat(1)` on `[[1,2],[3,4],[5,6]]` yields exactly
`[1,2]`, and `flat()` (unlimited, `n = -1`) on `[[1],[2,3]]` yields
`[1,2,3]`. -/
theorem flat_expands_first_n_groups_witness :
    BuildFlatRule (1 : Int) [[1, 2], [3, 4], [5, 6]] = ([1, 2] : List Nat) ∧
    BuildFlatRule (-1 : Int) [[1], [2, 3]] = ([1, 2, 3] : List Nat) := by
  constructor
  · exact (flat_expands_first_n_groups 1 (-1) [[1, 2], [3, 4], [5, 6]]).1
  · exact (flat_expands_first_n_groups 1 (-1) [[1], [2, 3]]).2 (by decide)

theorem whereLoop_enumFrom {α : Type} (fn : α → Nat → Bool) (it : List α) :
    ∀ i : Nat,
      whereLoop fn i it = ((List.enumFrom i it).filter (fun p => fn p.2 p.1)).map Prod.snd := by
  induction it with
  | nil => intro i; rfl
  | cons v rest ih =>
    intro i
    rw [whereLoop, List.enumFrom, List.filter_cons]
    by_cases h : fn v i
    · simp only [h, if_true, List.map_cons, ih (i + 1)]
    · simp only [h, Bool.false_eq_true, if_false, ih (i + 1)]

/-- C6: `where(fn)` yields exactly those input elements on which the
predicate returns true, unchanged and in order, and the index passed to
the predicate is the element's zero-based position in the input sequence
(it advances once per input element, filtered-out elements included). -/
theorem where_filters_with_input_index {α : Type} (fn : α → Nat → Bool) (it : List α) :
    BuildWhereRule fn it = (it.enum.filter (fun p => fn p.2 p.1)).map Prod.snd := by
  show whereLoop fn 0 it = _
  rw [whereLoop_enumFrom fn it 0]
  rfl

theorem compileList_singleton {α : Type} (c : Stage α) : compileList [c] = c := rfl

/-- C4: `Query.extend()` allocates a new Builder whose rule list is
exactly the one-element list holding the compiled snapshot of the
current Builder, and the two Builders are isolated: any chain of
stage-appending mutations applied to the new Builder leaves the output
of the original Builder's pipeline on any source unchanged, and vice
versa. -/
theorem extend_snapshot_isolated {α : Type} (st : BState α) (a : Nat)
    (ha : a < st.next) (s : List α) :
    getRules (extendS st a).2 (extendS st a).1 = [compileS st a] ∧
    (∀ rs : List (Stage α),
      runS (pushManyS (extendS st a).2 (extendS st a).1 rs) a s
        = runS (extendS st a).2 a s) ∧
    (∀ rs : List (Stage α),
      runS (pushManyS (extendS st a).2 a rs) (extendS st a).1 s
        = runS (extendS st a).2 (extendS st a).1 s) := by
  have hne : a ≠ st.next := Nat.ne_of_lt ha
  refine ⟨?_, ?_, ?_⟩
  · simp [extendS, getRules]
  · intro rs
    show compileList (getRules (pushManyS (extendS st a).2 (extendS st a).1 rs) a) s = _
    rw [show (extendS st a).1 = st.next from rfl, getRules_pushManyS_ne _ _ _ _ hne]
    rfl
  · intro rs
    show compileList (getRules (pushManyS (extendS st a).2 a rs) (extendS st a).1) s = _
    rw [show (extendS st a).1 = st.next from rfl, getRules_pushManyS_ne _ _ _ _ (Ne.symm hne)]
    rfl

/-- C4 (witness): starting from a store holding one Builder (address 0,
rule list `[take(1)]`), extending it and then appending a `map` stage to
the extension leaves the original Builder's output on `[5, 6]`
unchanged, namely `[5]`. -/
theorem extend_snapshot_isolated_witness :
    runS (pushManyS (extendS (BState.mk (fun _ => [BuildTakeRule 1]) 1 : BState Nat) 0).2
        (extendS (BState.mk (fun _ => [BuildTakeRule 1]) 1 : BState Nat) 0).1
        [BuildMapRule (fun v _ => v + 1)]) 0 [5, 6]
      = runS (extendS (BState.mk (fun _ => [BuildTakeRule 1]) 1 : BState Nat) 0).2 0 [5, 6] ∧
    runS (extendS (BState.mk (fun _ => [BuildTakeRule 1]) 1 : BState Nat) 0).2 0 [5, 6] = [5] := by
  constructor
  · exact (extend_snapshot_isolated (BState.mk (fun _ => [BuildTakeRule 1]) 1 : BState Nat) 0
      (by decide) [5, 6]).2.1 [BuildMapRule (fun v _ => v + 1)]
  · rfl

/-- C5 (amended): on a Builder with a non-empty stage list, `pack()`
returns the same Builder, replaces its stage list in place with the
one-element list holding `compile()`'s result, is behaviorally a no-op
on every source, and touches no other Builder; on an empty stage list
it leaves the Builder untouched (see the counterexample theorem). -/
theorem pack_collapses_nonempty {α : Type} (st : BState α) (a : Nat)
    (h : (getRules st a).length > 0) (s : List α) :
    (packS st a).1 = a ∧
    getRules (packS st a).2 a = [compileS st a] ∧
    (getRules (packS st a).2 a).length = 1 ∧
    runS (packS st a).2 a s = runS st a s ∧
    (∀ b, b ≠ a → getRules (packS st a).2 b = getRules st b) := by
  have hpack : packS st a = (a, setRules st a [compileList (getRules st a)]) := by
    rw [packS, if_pos h]
  refine ⟨by rw [hpack], ?_, ?_, ?_, ?_⟩
  · rw [hpack]
    simp [setRules, getRules, compileS]
  · rw [hpack]
    simp [setRules, getRules]
  · rw [hpack]
    show compileList (getRules (setRules st a [compileList (getRules st a)]) a) s = _
    have hget : getRules (setRules st a [compileList (getRules st a)]) a
        = [compileList (getRules st a)] := by
      simp [setRules, getRules]
    rw [hget, compileList_singleton]
    rfl
  · rw [hpack]
    intro b hb
    simp [setRules, getRules, if_neg hb]

/-- C5 (counterexample): the claim fails on a Builder whose stage list
is empty: there `pack()` leaves the list empty (length 0), not replaced
by a single-element list (length 1). -/
theorem pack_empty_not_singleton :
    (getRules (packS (BState.mk (fun _ => ([] : List (Stage Nat))) 1) 0).2 0).length = 0 ∧
    ¬ (getRules (packS (BState.mk (fun _ => ([] : List (Stage Nat))) 1) 0).2 0).length = 1 := by
  constructor
  · rfl
  · intro hcontra
    exact absurd hcontra (by decide)

/-- C5 (witness): packing a Builder holding the two stages `take(1)` and
`map(v => v+1)` collapses its stage list to length 1 and leaves its
output on `[7, 8]` unchanged. -/
theorem pack_collapses_nonempty_witness :
    (getRules (packS (BState.mk
        (fun _ => [BuildTakeRule 1, BuildMapRule (fun v _ => v + 1)]) 1 : BState Nat) 0).2
        0).length = 1 ∧
    runS (packS (BState.mk
        (fun _ => [BuildTakeRule 1, BuildMapRule (fun v _ => v + 1)]) 1 : BState Nat) 0).2
        0 [7, 8]
      = runS (BState.mk
        (fun _ => [BuildTakeRule 1, BuildMapRule (fun v _ => v + 1)]) 1 : BState Nat) 0 [7, 8] := by
  constructor
  · exact (pack_collapses_nonempty (BState.mk
      (fun _ => [BuildTakeRule 1, BuildMapRule (fun v _ => v + 1)]) 1 : BState Nat) 0
      (by decide) [7, 8]).2.2.1
  · exact (pack_collapses_nonempty (BState.mk
      (fun _ => [BuildTakeRule 1, BuildMapRule (fun v _ => v + 1)]) 1 : BState Nat) 0
      (by decide) [7, 8]).2.2.2.1

/-- C8: `build()` is `on()` with no argument — the returned executor has
its source unset (the constructor default `null`); constructing it
always succeeds, its compiled query is intact, and the not-iterable
failure surfaces only when a terminal drain first pulls from it. -/
theorem build_unset_source_lazy_failure {α : Type} (rules : List (Stage α)) (s : List α) :
    queryBuild rules = queryOn rules none ∧
    (queryBuild rules).iterable = none ∧
    (queryBuild rules).query s = compileList rules s ∧
    execCollect (queryBuild rules) = .error .notIterable :=
  ⟨rfl, rfl, rfl, rfl⟩

theorem find_map_fields (fs : List String) (v : JsVal) (g : String) :
    (fs.map (fun f2 => (f2, getField v f2))).find? (fun p => p.1 == g)
      = if g ∈ fs then some (g, getField v g) else none := by
  induction fs with
  | nil => rfl
  | cons f0 fs ih =>
    by_cases h : f0 = g
    · subst h
      simp [List.find?]
    · have hmem : (g ∈ f0 :: fs) ↔ (g ∈ fs) := by
        constructor
        · intro hm
          rcases List.mem_cons.mp hm with h1 | h1
          · exact absurd h1.symm h
          · exact h1
        · exact fun hm => List.mem_cons_of_mem _ hm
      rw [List.map_cons, List.find?_cons_of_neg, ih, if_congr hmem rfl rfl]
      simp [h]

/-- C9: with an array of field names, `select` maps each input element,
positionally, to a new record whose key list is exactly the requested
field list, each value being the corresponding field of the input
element (`undefined` when the field is absent, and lookups outside the
requested fields give `undefined`); with a single field name, the
field's value itself is yielded, with no wrapping record. -/
theorem select_projects_requested_fields (fs : List String) (f g : String)
    (it : List JsVal) (i : Nat) (v : JsVal) :
    BuildSelectRule (SelectFields.single f) it = it.map (fun u => getField u f) ∧
    (BuildSelectRule (SelectFields.many fs) it).length = it.length ∧
    (it[i]? = some v →
       (BuildSelectRule (SelectFields.many fs) it)[i]?
         = some (JsVal.obj (fs.map (fun f2 => (f2, getField v f2))))) ∧
    objKeys (JsVal.obj (fs.map (fun f2 => (f2, getField v f2)))) = fs ∧
    getField (JsVal.obj (fs.map (fun f2 => (f2, getField v f2)))) g
      = (if g ∈ fs then getField v g else JsVal.undefined) := by
  refine ⟨rfl, by simp [BuildSelectRule], ?_, ?_, ?_⟩
  · intro hv
    show (it.map _)[i]? = _
    rw [List.getElem?_map, hv]
    rfl
  · show (fs.map (fun f2 => (f2, getField v f2))).map Prod.fst = fs
    rw [List.map_map]
    exact List.map_id fs
  · show (((fs.map (fun f2 => (f2, getField v f2))).find?
        (fun p => p.1 == g)).map Prod.snd).getD .undefined = _
    rw [find_map_fields]
    by_cases hg : g ∈ fs
    · rw [if_pos hg, if_pos hg]
      rfl
    · rw [if_neg hg, if_neg hg]
      rfl

/-- C9 (witness): `select("a")` on `[{a:1, b:2}]` yields `[1]` (the
unwrapped value), and `select(["a","b"])` on `[{a:1, b:2, c:3}]` yields
`[{a:1, b:2}]` (the extra field `c` is absent). -/
theorem select_projects_requested_fields_witness :
    BuildSelectRule (SelectFields.single "a")
        [JsVal.obj [("a", JsVal.num 1), ("b", JsVal.num 2)]] = [JsVal.num 1] ∧
    (BuildSelectRule (SelectFields.many ["a", "b"])
        [JsVal.obj [("a", JsVal.num 1), ("b", JsVal.num 2), ("c", JsVal.num 3)]])[0]?
      = some (JsVal.obj [("a", JsVal.num 1), ("b", JsVal.num 2)]) := by
  constructor
  · exact ((select_projects_requested_fields ["a", "b"] "a" "c"
      [JsVal.obj [("a", JsVal.num 1), ("b", JsVal.num 2)]] 0 JsVal.undefined).1).trans rfl
  · exact ((select_projects_requested_fields ["a", "b"] "a" "c"
      [JsVal.obj [("a", JsVal.num 1), ("b", JsVal.num 2), ("c", JsVal.num 3)]] 0
      (JsVal.obj [("a", JsVal.num 1), ("b", JsVal.num 2), ("c", JsVal.num 3)])).2.2.1 rfl).trans
      rfl

theorem acollectLoop_cons {α ε β : Type} (fn : α → Nat → Except ε (JsPromise ε β))
    (i : Nat) (acc : List (JsPromise ε β)) (v : α) (rest : List α) (perr : Option ε) :
    acollectLoop fn i acc (v :: rest) perr
      = match fn v i with
        | .error e => .syncThrow e
        | .ok p => acollectLoop fn (i + 1) (acc ++ [p]) rest perr := rfl

theorem acollectLoop_cons_error {α ε β : Type} (fn : α → Nat → Except ε (JsPromise ε β))
    (i : Nat) (acc : List (JsPromise ε β)) (v : α) (rest : List α) (perr : Option ε)
    (e : ε) (hv : fn v i = .error e) :
    acollectLoop fn i acc (v :: rest) perr = .syncThrow e := by
  rw [acollectLoop_cons, hv]

theorem acollectLoop_ok {α ε β : Type} (pf : α → Nat → JsPromise ε β) (vals : List α) :
    ∀ (i : Nat) (acc : List (JsPromise ε β)),
      acollectLoop (fun v j => .ok (pf v j)) i acc vals none
        = .aggregate
            (promiseAll (acc ++ (List.enumFrom i vals).map (fun p => pf p.2 p.1))) := by
  induction vals with
  | nil =>
    intro i acc
    rw [show List.enumFrom i ([] : List α) = [] from rfl, List.map_nil, List.append_nil]
    rfl
  | cons v rest ih =>
    intro i acc
    show acollectLoop (fun v j => Except.ok (pf v j)) (i + 1) (acc ++ [pf v i]) rest none
      = .aggregate (promiseAll (acc ++ ((i, v) :: List.enumFrom (i + 1) rest).map
          (fun p => pf p.2 p.1)))
    rw [ih (i + 1) (acc ++ [pf v i]), List.map_cons, List.append_assoc, List.singleton_append]

theorem acollectLoop_okInit {α ε β : Type} (fn : α → Nat → Except ε (JsPromise ε β))
    (q : α → Nat → JsPromise ε β) (pre : List α) :
    ∀ (i : Nat) (acc : List (JsPromise ε β)) (rest : List α) (perr : Option ε),
      (∀ x ∈ List.enumFrom i pre, fn x.2 x.1 = .ok (q x.2 x.1)) →
      acollectLoop fn i acc (pre ++ rest) perr
        = acollectLoop fn (i + pre.length)
            (acc ++ (List.enumFrom i pre).map (fun p => q p.2 p.1)) rest perr := by
  induction pre with
  | nil =>
    intro i acc rest perr h
    rw [List.nil_append, show List.enumFrom i ([] : List α) = [] from rfl, List.map_nil,
      List.append_nil]
    rfl
  | cons v pre ih =>
    intro i acc rest perr h
    have hv : fn v i = .ok (q v i) := h (i, v) (List.mem_cons_self _ _)
    have hih := ih (i + 1) (acc ++ [q v i]) rest perr
      (fun x hx => h x (List.mem_cons_of_mem _ hx))
    rw [List.cons_append, acollectLoop_cons, hv]
    show acollectLoop fn (i + 1) (acc ++ [q v i]) (pre ++ rest) perr
      = acollectLoop fn (i + (v :: pre).length)
          (acc ++ (List.enumFrom i (v :: pre)).map (fun p => q p.2 p.1)) rest perr
    rw [hih, show List.enumFrom i (v :: pre) = (i, v) :: List.enumFrom (i + 1) pre from rfl,
      List.map_cons, List.append_assoc, List.singleton_append, List.length_cons,
      show i + 1 + pre.length = i + (pre.length + 1) from by omega]

theorem earliestRejection_of_ok {ε β γ : Type} (l : List γ) (pf : γ → JsPromise ε β)
    (h : ∀ x, (pf x).result.isOk = true) : earliestRejection (l.map pf) = none := by
  induction l with
  | nil => rfl
  | cons x rest ih =>
    show mergeRejection (pf x) (earliestRejection (rest.map pf)) = none
    rw [ih]
    unfold mergeRejection
    cases hres : (pf x).result with
    | ok b => rfl
    | error e =>
      have hx := h x
      rw [hres] at hx
      exact Bool.noConfusion (show false = true from hx)

theorem promiseValues_of_ok {ε β γ : Type} (l : List γ) (pf : γ → JsPromise ε β)
    (gv : γ → β) (h : ∀ x, (pf x).result = .ok (gv x)) :
    promiseValues (l.map pf) = l.map gv := by
  induction l with
  | nil => rfl
  | cons x rest ih =>
    show List.filterMap (fun p => p.result.toOption) (pf x :: rest.map pf) = gv x :: rest.map gv
    rw [@List.filterMap_cons_some _ _ (fun p => p.result.toOption) (pf x) (rest.map pf)
      (gv x) (by show (pf x).result.toOption = some (gv x); rw [h x]; rfl)]
    show gv x :: promiseValues (rest.map pf) = gv x :: rest.map gv
    rw [ih]

theorem promiseAll_of_ok {ε β γ : Type} (l : List γ) (pf : γ → JsPromise ε β)
    (gv : γ → β) (h : ∀ x, (pf x).result = .ok (gv x)) :
    promiseAll (l.map pf) = .ok (l.map gv) := by
  unfold promiseAll
  rw [earliestRejection_of_ok l pf (fun x => by rw [h x]; rfl)]
  show Except.ok (promiseValues (l.map pf)) = _
  rw [promiseValues_of_ok l pf gv h]

/-- C7: `acollect(fn)`, over a pipeline that produces its values without
failing and an `fn` that always returns a promise, launches the
aggregate join. When every promise fulfils, the aggregate fulfils with
position `i` holding the result of `fn` on the `i`-th produced value —
whatever the settle times (they do not occur in the fulfilment value).
When some promise rejects, the aggregate rejects with the reason of the
earliest-settling rejection; sibling outcomes do not appear in it (and
nothing in the model cancels them). -/
theorem acollect_ordered_failfast {α ε β : Type} (produced : List α)
    (settle : α → Nat → Nat) (out : α → Nat → Except ε β) :
    (∀ g : α → Nat → β, (∀ v i, out v i = .ok (g v i)) →
       acollectRun produced none
           (fun v i => .ok (⟨settle v i, out v i⟩ : JsPromise ε β))
         = .aggregate (.ok (produced.enum.map (fun p => g p.2 p.1)))) ∧
    (∀ t e, earliestRejection (produced.enum.map
          (fun p => (⟨settle p.2 p.1, out p.2 p.1⟩ : JsPromise ε β))) = some (t, e) →
       acollectRun produced none
           (fun v i => .ok (⟨settle v i, out v i⟩ : JsPromise ε β))
         = .aggregate (.error e)) := by
  constructor
  · intro g hg
    show acollectLoop _ 0 [] produced none = _
    rw [acollectLoop_ok (fun v i => (⟨settle v i, out v i⟩ : JsPromise ε β)) produced 0 [],
      List.nil_append,
      promiseAll_of_ok (List.enumFrom 0 produced)
        (fun p => (⟨settle p.2 p.1, out p.2 p.1⟩ : JsPromise ε β))
        (fun p => g p.2 p.1) (fun p => hg p.2 p.1)]
    rfl
  · intro t e hrej
    rw [show produced.enum = List.enumFrom 0 produced from rfl] at hrej
    show acollectLoop _ 0 [] produced none = _
    rw [acollectLoop_ok (fun v i => (⟨settle v i, out v i⟩ : JsPromise ε β)) produced 0 [],
      List.nil_append]
    unfold promiseAll
    rw [hrej]

/-- C7 (witness): on the produced values `[10, 20]`, with promises that
settle in reverse order (`settleAt` 5 then 4), the aggregate still
fulfils in production order, `[10+0, 20+1] = [10, 21]`; and when the
second promise rejects with reason 7, the aggregate rejects with 7. -/
theorem acollect_ordered_failfast_witness :
    acollectRun [10, 20] none
        (fun v i => Except.ok (⟨5 - i, Except.ok (v + i)⟩ : JsPromise Nat Nat))
      = .aggregate (.ok [10, 21]) ∧
    acollectRun [10, 20] none
        (fun v i => Except.ok
          (⟨5 - i, if i = 0 then Except.ok v else Except.error 7⟩ : JsPromise Nat Nat))
      = .aggregate (.error 7) := by
  constructor
  · exact ((acollect_ordered_failfast [10, 20] (fun _ i => 5 - i)
      (fun v i => Except.ok (v + i))).1 (fun v i => v + i) (fun v i => rfl)).trans rfl
  · exact (acollect_ordered_failfast [10, 20] (fun _ i => 5 - i)
      (fun v i => if i = 0 then Except.ok v else Except.error 7)).2 4 7 rfl

/-- C10: `acollect` drives the pipeline and calls `fn` synchronously
inside its own loop, before `Promise.all` runs: if `fn` throws at the
element following the cleanly processed prefix `pre`, the call throws
that error synchronously — whatever comes after that element is never
processed and no aggregate is launched; likewise, if the pipeline itself
throws after producing `pre`, the call throws that error synchronously
and no aggregate is launched. -/
theorem acollect_synchronous_throw {α ε β : Type} (pre post : List α) (v : α)
    (perr : Option ε) (e : ε) (fn : α → Nat → Except ε (JsPromise ε β))
    (q : α → Nat → JsPromise ε β) :
    ((∀ x ∈ pre.enum, fn x.2 x.1 = .ok (q x.2 x.1)) → fn v pre.length = .error e →
       acollectRun (pre ++ v :: post) perr fn = .syncThrow e) ∧
    ((∀ x ∈ pre.enum, fn x.2 x.1 = .ok (q x.2 x.1)) →
       acollectRun pre (some e) fn = .syncThrow e) := by
  constructor
  · intro hok hv
    show acollectLoop fn 0 [] (pre ++ v :: post) perr = _
    rw [acollectLoop_okInit fn q pre 0 [] (v :: post) perr hok,
      acollectLoop_cons_error fn _ _ v post perr e (by rw [Nat.zero_add]; exact hv)]
  · intro hok
    show acollectLoop fn 0 [] pre (some e) = _
    rw [show acollectLoop fn 0 [] pre (some e)
          = acollectLoop fn 0 [] (pre ++ []) (some e) from by rw [List.append_nil],
      acollectLoop_okInit fn q pre 0 [] [] (some e) hok]
    rfl

/-- C10 (witness): with `fn` throwing 9 on the value 2, acollect over
the produced values `[1, 2, 3]` throws 9 synchronously (the value 3 is
behind the throw); with an `fn` that returns promises and a pipeline
that throws 5 after producing `[1]`, acollect throws 5 synchronously. -/
theorem acollect_synchronous_throw_witness :
    acollectRun ([1, 2, 3] : List Nat) (none : Option Nat)
        (fun v _ => if v = 2 then Except.error 9
          else Except.ok (⟨0, Except.ok v⟩ : JsPromise Nat Nat))
      = .syncThrow 9 ∧
    acollectRun ([1] : List Nat) (some 5)
        (fun v _ => if v = 2 then Except.error 9
          else Except.ok (⟨0, Except.ok v⟩ : JsPromise Nat Nat))
      = .syncThrow 5 := by
  constructor
  · exact (acollect_synchronous_throw [1] [3] 2 none 9
      (fun v _ => if v = 2 then Except.error 9
        else Except.ok (⟨0, Except.ok v⟩ : JsPromise Nat Nat))
      (fun v _ => (⟨0, Except.ok v⟩ : JsPromise Nat Nat))).1
      (by
        intro x hx
        cases hx with
        | head => rfl
        | tail _ h2 => cases h2)
      rfl
  · exact (acollect_synchronous_throw [1] [3] 2 none 5
      (fun v _ => if v = 2 then Except.error 9
        else Except.ok (⟨0, Except.ok v⟩ : JsPromise Nat Nat))
      (fun v _ => (⟨0, Except.ok v⟩ : JsPromise Nat Nat))).2
      (by
        intro x hx
        cases hx with
        | head => rfl
        | tail _ h2 => cases h2)
